import Mathlib

/-!
Shallow embedding of the agenticWallet TypeScript repository
(key custody, allowlist, transaction pipeline, agent registry,
execution loops) together with proofs about the embedded code.

Numbers that are TypeScript `number` values (SOL amounts, limits) are
modelled as rationals; byte buffers are lists of naturals below 256;
timestamps and randomness are passed in as explicit parameters since
they are environment inputs of the real code.
-/

namespace AgenticWallet

/-! ### Base64 (Buffer.toString("base64") / Buffer.from(_, "base64"))

Modelled from the spec: Node's base64 codec is external to the
repository.  Bytes are grouped into 6-bit sextets (with the value 64
standing for the padding position) and mapped through the standard
alphabet; `=` (code 61) is the padding character. -/

/-- Split a byte list into base64 sextet values; 64 marks a padding slot. -/
def toSextets : List Nat → List Nat
  | [] => []
  | [b1] => [b1 / 4, b1 % 4 * 16, 64, 64]
  | [b1, b2] => [b1 / 4, b1 % 4 * 16 + b2 / 16, b2 % 16 * 4, 64]
  | b1 :: b2 :: b3 :: rest =>
      (b1 / 4) :: (b1 % 4 * 16 + b2 / 16) :: (b2 % 16 * 4 + b3 / 64) ::
        (b3 % 64) :: toSextets rest

/-- Reassemble bytes from sextet values, honouring padding slots. -/
def fromSextets : List Nat → List Nat
  | s1 :: s2 :: s3 :: s4 :: rest =>
      if s3 = 64 then [s1 * 4 + s2 / 16]
      else if s4 = 64 then [s1 * 4 + s2 / 16, s2 % 16 * 16 + s3 / 4]
      else (s1 * 4 + s2 / 16) :: (s2 % 16 * 16 + s3 / 4) ::
        (s3 % 4 * 64 + s4) :: fromSextets rest
  | _ => []

/-- The standard base64 alphabet as character codes, with the padding
character `=` (code 61) at index 64. -/
def b64alphabet : List Nat :=
  [65, 66, 67, 68, 69, 70, 71, 72, 73, 74, 75, 76, 77, 78, 79, 80, 81, 82,
   83, 84, 85, 86, 87, 88, 89, 90,
   97, 98, 99, 100, 101, 102, 103, 104, 105, 106, 107, 108, 109, 110, 111,
   112, 113, 114, 115, 116, 117, 118, 119, 120, 121, 122,
   48, 49, 50, 51, 52, 53, 54, 55, 56, 57, 43, 47, 61]

def sextetChar (s : Nat) : Nat := b64alphabet.getD s 0

def charSextet (c : Nat) : Nat := b64alphabet.indexOf c

def b64encode (bytes : List Nat) : List Nat :=
  (toSextets bytes).map sextetChar

def b64decode (chars : List Nat) : List Nat :=
  fromSextets (chars.map charSextet)

theorem charSextet_sextetChar {s : Nat} (h : s ≤ 64) :
    charSextet (sextetChar s) = s := by
  interval_cases s <;> rfl

theorem toSextets_le (l : List Nat) (h : ∀ b ∈ l, b < 256) :
    ∀ s ∈ toSextets l, s ≤ 64 := by
  induction l using toSextets.induct with
  | case1 => intro s hs; simp [toSextets] at hs
  | case2 b1 =>
      have hb1 : b1 < 256 := h b1 (by simp)
      intro s hs
      simp only [toSextets, List.mem_cons, List.not_mem_nil, or_false] at hs
      rcases hs with rfl | rfl | rfl | rfl <;> omega
  | case3 b1 b2 =>
      have hb1 : b1 < 256 := h b1 (by simp)
      have hb2 : b2 < 256 := h b2 (by simp)
      intro s hs
      simp only [toSextets, List.mem_cons, List.not_mem_nil, or_false] at hs
      rcases hs with rfl | rfl | rfl | rfl <;> omega
  | case4 b1 b2 b3 rest ih =>
      have hb1 : b1 < 256 := h b1 (by simp)
      have hb2 : b2 < 256 := h b2 (by simp)
      have hb3 : b3 < 256 := h b3 (by simp)
      have hrest : ∀ b ∈ rest, b < 256 := by
        intro b hb; exact h b (by simp [hb])
      intro s hs
      simp only [toSextets, List.mem_cons] at hs
      rcases hs with rfl | rfl | rfl | rfl | hs
      · omega
      · omega
      · omega
      · omega
      · exact ih hrest s hs

theorem fromSextets_toSextets (l : List Nat) (h : ∀ b ∈ l, b < 256) :
    fromSextets (toSextets l) = l := by
  induction l using toSextets.induct with
  | case1 => rfl
  | case2 b1 =>
      have hb1 : b1 < 256 := h b1 (by simp)
      simp only [toSextets, fromSextets, if_pos, List.cons.injEq, and_true]
      omega
  | case3 b1 b2 =>
      have hb1 : b1 < 256 := h b1 (by simp)
      have hb2 : b2 < 256 := h b2 (by simp)
      have h3 : ¬ (b2 % 16 * 4 = 64) := by omega
      simp only [toSextets, fromSextets, if_neg h3, if_pos,
        List.cons.injEq, and_true]
      omega
  | case4 b1 b2 b3 rest ih =>
      have hb1 : b1 < 256 := h b1 (by simp)
      have hb2 : b2 < 256 := h b2 (by simp)
      have hb3 : b3 < 256 := h b3 (by simp)
      have hrest : ∀ b ∈ rest, b < 256 := by
        intro b hb; exact h b (by simp [hb])
      have h3 : ¬ (b2 % 16 * 4 + b3 / 64 = 64) := by omega
      have h4 : ¬ (b3 % 64 = 64) := by omega
      simp only [toSextets, fromSextets, if_neg h3, if_neg h4,
        List.cons.injEq]
      refine ⟨by omega, by omega, by omega, ih hrest⟩

theorem b64decode_b64encode (l : List Nat) (h : ∀ b ∈ l, b < 256) :
    b64decode (b64encode l) = l := by
  unfold b64decode b64encode
  rw [List.map_map]
  have hmap : (toSextets l).map (charSextet ∘ sextetChar) = toSextets l := by
    have h1 : (toSextets l).map (charSextet ∘ sextetChar) =
        (toSextets l).map id := by
      apply List.map_congr_left
      intro s hs
      exact charSextet_sextetChar (toSextets_le l h s hs)
    rw [h1, List.map_id]
  rw [hmap, fromSextets_toSextets l h]

/-! ### Cryptographic primitives

Modelled from the spec: `scryptSync` and the `aes-256-gcm` cipher of
`node:crypto`, and the ed25519 public-key derivation performed by
`@solana/web3.js`, are external to the repository.  The cipher is
modelled in its CTR structure: encryption XORs the plaintext with a
keystream determined by the key and the nonce, and the auth tag is a
MAC over the key, the nonce and the ciphertext.  The concrete mixing
functions below are stand-ins for those primitives; every property
proved about `KeyManager` depends only on their shapes (determinism,
byte-boundedness, XOR structure), which the real primitives share. -/

/-- Modelled from the spec: `scryptSync(passphrase, salt, 32)`; the
derived 32-byte key is packed into one natural number. -/
def deriveKey (passphrase : String) (salt : List Nat) : Nat :=
  ((passphrase.toList.map Char.toNat) ++ salt).foldl
    (fun a b => (a * 131 + b + 1) % (2 ^ 256)) 7

/-- Modelled from the spec: the CTR keystream of `aes-256-gcm` for a
given key and nonce, truncated to `n` bytes. -/
def keystream (key : Nat) (iv : List Nat) (n : Nat) : List Nat :=
  (List.range n).map
    (fun i => (key + (iv.foldl (fun a b => a * 256 + b) 0) * 97 + i * 59) % 256)

/-- Pointwise XOR of two byte lists (truncating to the shorter). -/
def xorBytes (a b : List Nat) : List Nat :=
  List.zipWith (fun x y => x ^^^ y) a b

/-- Modelled from the spec: the 16-byte GCM authentication tag, a MAC
over the key, the nonce and the ciphertext. -/
def gcmTag (key : Nat) (iv ct : List Nat) : List Nat :=
  (List.range 16).map
    (fun i =>
      ((iv ++ ct).foldl (fun a b => (a * 131 + b + 1) % (2 ^ 128)) (key + i))
        % 256)

/-- Modelled from the spec: ed25519 public-key derivation from the
64-byte secret key, as performed by `Keypair.fromSecretKey`. -/
def pubkeyOf (secretKey : List Nat) : String :=
  toString (secretKey.foldl (fun a b => a * 256 + b) 1)

structure Keypair where
  publicKey : String
  secretKey : List Nat
deriving DecidableEq, Repr

/-- `Keypair.fromSecretKey` of `@solana/web3.js`: rebuilds the keypair,
re-deriving the public key from the secret-key bytes. -/
def Keypair.fromSecretKey (secretKey : List Nat) : Keypair :=
  { publicKey := pubkeyOf secretKey, secretKey := secretKey }

/-- The persisted record of `src/wallet/types.ts` (`StoredKeypair`);
the byte-blob fields hold base64 character codes as in the source. -/
structure StoredKeypair where
  name : String
  publicKey : String
  cipherText : List Nat
  iv : List Nat
  salt : List Nat
  tag : List Nat
  createdAt : String
deriving DecidableEq, Repr

/-- `KeyManager.encryptKeypair`.  The fresh random `iv` and `salt`
produced by `randomBytes` and the timestamp are explicit inputs. -/
def encryptKeypair (passphrase : String) (iv salt : List Nat)
    (now : String) (name : String) (kp : Keypair) : StoredKeypair :=
  let key := deriveKey passphrase salt
  let cipherText := xorBytes kp.secretKey (keystream key iv kp.secretKey.length)
  let tag := gcmTag key iv cipherText
  { name := name
    publicKey := kp.publicKey
    cipherText := b64encode cipherText
    iv := b64encode iv
    salt := b64encode salt
    tag := b64encode tag
    createdAt := now }

/-- `KeyManager.decryptKeypair`; the `decipher.final()` authentication
failure is modelled as `none`. -/
def decryptKeypair (passphrase : String) (stored : StoredKeypair) :
    Option Keypair :=
  let iv := b64decode stored.iv
  let salt := b64decode stored.salt
  let tag := b64decode stored.tag
  let key := deriveKey passphrase salt
  let ct := b64decode stored.cipherText
  if gcmTag key iv ct = tag then
    some (Keypair.fromSecretKey (xorBytes ct (keystream key iv ct.length)))
  else none

theorem xorBytes_xorBytes (a b : List Nat) (h : a.length = b.length) :
    xorBytes (xorBytes a b) b = a := by
  induction a generalizing b with
  | nil => simp [xorBytes]
  | cons x xs ih =>
      cases b with
      | nil => simp at h
      | cons y ys =>
          simp only [xorBytes, List.zipWith_cons_cons, List.cons.injEq]
          constructor
          · rw [Nat.xor_assoc, Nat.xor_self, Nat.xor_zero]
          · exact ih ys (by simpa using h)

theorem xorBytes_length (a b : List Nat) :
    (xorBytes a b).length = min a.length b.length := by
  simp [xorBytes]

theorem keystream_length (key : Nat) (iv : List Nat) (n : Nat) :
    (keystream key iv n).length = n := by
  simp [keystream]

theorem xorBytes_lt (a b : List Nat) (ha : ∀ x ∈ a, x < 256)
    (hb : ∀ x ∈ b, x < 256) : ∀ x ∈ xorBytes a b, x < 256 := by
  induction a generalizing b with
  | nil => simp [xorBytes]
  | cons x xs ih =>
      cases b with
      | nil => simp [xorBytes]
      | cons y ys =>
          intro z hz
          simp only [xorBytes, List.zipWith_cons_cons, List.mem_cons] at hz
          rcases hz with rfl | hz
          · have hx : x < 2 ^ 8 := ha x (by simp)
            have hy : y < 2 ^ 8 := hb y (by simp)
            exact Nat.xor_lt_two_pow hx hy
          · exact ih ys (fun u hu => ha u (by simp [hu]))
              (fun u hu => hb u (by simp [hu])) z hz

theorem keystream_lt (key : Nat) (iv : List Nat) (n : Nat) :
    ∀ x ∈ keystream key iv n, x < 256 := by
  intro x hx
  simp only [keystream, List.mem_map] at hx
  obtain ⟨i, _, rfl⟩ := hx
  exact Nat.mod_lt _ (by norm_num)

theorem gcmTag_lt (key : Nat) (iv ct : List Nat) :
    ∀ x ∈ gcmTag key iv ct, x < 256 := by
  intro x hx
  simp only [gcmTag, List.mem_map] at hx
  obtain ⟨i, _, rfl⟩ := hx
  exact Nat.mod_lt _ (by norm_num)

/-! ### Key custody store (`KeyManager.saveKeypair` / file system)

The `keys/` directory is modelled as an association list from wallet
name to the stored record; `fs.writeFile` on `<name>.json` replaces
the record for `name` if present and appends it otherwise. -/

def KeyStore : Type := List (String × StoredKeypair)

/-- The effect of `fs.writeFile(path.join(dir, name + ".json"), ...)`:
replace the record stored under `name`, or append a new one. -/
def writeRecord : KeyStore → String → StoredKeypair → KeyStore
  | [], n, r => [(n, r)]
  | (m, r0) :: rest, n, r =>
      if m = n then (n, r) :: rest else (m, r0) :: writeRecord rest n r

/-- Reading `<name>.json` from the keystore directory. -/
def lookupRecord (store : KeyStore) (name : String) : Option StoredKeypair :=
  (store.find? (fun p => p.1 = name)).map (fun p => p.2)

/-- `KeyManager.saveKeypair`: encrypt, then write the file
unconditionally (fresh `iv`/`salt` are explicit inputs). -/
def saveKeypair (passphrase : String) (iv salt : List Nat) (now : String)
    (store : KeyStore) (name : String) (kp : Keypair) : KeyStore :=
  writeRecord store name (encryptKeypair passphrase iv salt now name kp)

/-! ### Program allowlist (`src/security/ProgramAllowlist.ts`)

Program ids are their base58 strings; the `Set` of allowed programs is
modelled as the configured id list, membership and emptiness agreeing
with the `Set` it builds. -/

structure Instruction where
  programId : String
deriving DecidableEq, Repr

/-- `Transaction` of `@solana/web3.js`, restricted to the fields the
repository reads. -/
structure Transaction where
  instructions : List Instruction
  feePayer : Option String
  recentBlockhash : Option String
deriving DecidableEq, Repr

inductive WalletError where
  | PolicyViolation (programId : String)
  | SimulationFailed (err : String)
deriving DecidableEq, Repr

/-- `ProgramAllowlist.isAllowed`. -/
def isAllowed (allowedPrograms : List String) (programId : String) : Bool :=
  if allowedPrograms.length = 0 then true
  else allowedPrograms.contains programId

/-- The `for` loop inside `validateTransaction`: throw at the first
instruction whose program is not allowed. -/
def validateLoop (allowedPrograms : List String) :
    List Instruction → Except WalletError Unit
  | [] => Except.ok ()
  | instruction :: rest =>
      if isAllowed allowedPrograms instruction.programId then
        validateLoop allowedPrograms rest
      else Except.error (WalletError.PolicyViolation instruction.programId)

/-- `ProgramAllowlist.validateTransaction`. -/
def validateTransaction (allowedPrograms : List String) (tx : Transaction) :
    Except WalletError Unit :=
  if allowedPrograms.length = 0 then Except.ok ()
  else validateLoop allowedPrograms tx.instructions

/-! ### Transaction submission pipeline (`WalletService.sendTransaction`)

Network effects are recorded in an explicit step trace so that
ordering ("policy before simulation before submission") is a statement
about the embedded function.  The simulation outcome and the two
submission channels are environment inputs. -/

inductive Step where
  | validate
  | simulate
  | submitKora
  | submitRpc
deriving DecidableEq, Repr

/-- `WalletService.sendTransaction`.  `simulate tx` is the error the
RPC simulation reports (`none` = clean), `koraEnabled` is
`koraClient.isEnabled()`, and `koraSig`/`rpcSig` are the signatures
the two channels would return. -/
def sendTransaction (allowedPrograms : List String)
    (simulate : Transaction → Option String) (koraEnabled : Bool)
    (koraSig rpcSig : String) (tx : Transaction)
    (skipSimulation : Bool) :
    Except WalletError String × List Step :=
  match validateTransaction allowedPrograms tx with
  | Except.error e => (Except.error e, [Step.validate])
  | Except.ok () =>
      if skipSimulation then
        if koraEnabled then
          (Except.ok koraSig, [Step.validate, Step.submitKora])
        else
          (Except.ok rpcSig, [Step.validate, Step.submitRpc])
      else
        match simulate tx with
        | some err =>
            (Except.error (WalletError.SimulationFailed err),
              [Step.validate, Step.simulate])
        | none =>
            if koraEnabled then
              (Except.ok koraSig, [Step.validate, Step.simulate, Step.submitKora])
            else
              (Except.ok rpcSig, [Step.validate, Step.simulate, Step.submitRpc])

/-- A step is a network submission. -/
def isSubmit : Step → Bool
  | Step.submitKora => true
  | Step.submitRpc => true
  | _ => false

/-! ### Agent registry (`src/orchestrator/Orchestrator.ts`)

`data/agents.json` is modelled as the in-memory list of records; every
operation reads the whole list and writes it back, as the source does.
Timestamps (`new Date().toISOString()`), generated UUIDs and generated
public keys are explicit inputs.  The keystore side of the
orchestrator is abstracted to the name-to-public-key view that the
registry code reads through `createWallet`/`loadWallet`. -/

/-- `DEFAULT_SPENDING_LIMIT` from `src/config.ts` (default `"1.0"`). -/
def DEFAULT_SPENDING_LIMIT : ℚ := 1

structure SplBalance where
  mint : String
  amount : ℚ
  decimals : Nat
deriving DecidableEq, Repr

/-- `AgentRecord` from `src/agents/Agent.ts`; optional fields are
optional there too. -/
structure AgentRecord where
  id : String
  walletName : String
  walletAddress : String
  strategy : String
  createdAt : String
  splBalances : Option (List SplBalance) := none
  solSpent : Option ℚ := none
  spendingLimit : Option ℚ := none
  lastUpdated : Option String := none
deriving DecidableEq, Repr

inductive OrchError where
  | AgentNotFound (id : String)
  | WalletNotFound (name : String)
  | LimitExceeded (spent limit : ℚ)
  | DuplicateRegistration (walletName : String)
  | TransferFailed (msg : String)
deriving DecidableEq, Repr

/-- `all.find((agent) => agent.id === id)` — `Orchestrator.getAgent`. -/
def findAgent : List AgentRecord → String → Option AgentRecord
  | [], _ => none
  | a :: rest, id => if a.id = id then some a else findAgent rest id

/-- `Orchestrator.updateAgent`: `findIndex` by id, replace that slot,
write back; `none` when the id is absent. -/
def updateList : List AgentRecord → AgentRecord → Option (List AgentRecord)
  | [], _ => none
  | a :: rest, r =>
      if a.id = r.id then some (r :: rest)
      else (updateList rest r).map (fun l => a :: l)

/-- The orchestrator's view of the wallet store: name to public key
(base58), with `createWallet`'s file write replacing an existing name. -/
def lookupWallet (wallets : List (String × String)) (name : String) :
    Option String :=
  (wallets.find? (fun p => p.1 = name)).map (fun p => p.2)

def writeWallet : List (String × String) → String → String →
    List (String × String)
  | [], n, pk => [(n, pk)]
  | (m, pk0) :: rest, n, pk =>
      if m = n then (n, pk) :: rest else (m, pk0) :: writeWallet rest n pk

structure OrchState where
  wallets : List (String × String)
  agents : List AgentRecord
deriving DecidableEq, Repr

/-- `Orchestrator.spawnAgent`: create the wallet, append a fresh
record.  `newId` is the generated UUID, `pk` the generated public key,
`now` the timestamp. -/
def spawnAgent (s : OrchState) (newId pk strategy name : String)
    (spendingLimit : Option ℚ) (now : String) : OrchState :=
  let record : AgentRecord :=
    { id := newId
      walletName := name
      walletAddress := pk
      strategy := strategy
      createdAt := now
      solSpent := some 0
      spendingLimit := some (spendingLimit.getD DEFAULT_SPENDING_LIMIT)
      lastUpdated := some now }
  { wallets := writeWallet s.wallets name pk
    agents := s.agents ++ [record] }

/-- `Orchestrator.promoteWallet`: reject if the wallet name already
has a record, then load the existing wallet, then append a record. -/
def promoteWallet (s : OrchState) (newId strategy walletName : String)
    (spendingLimit : Option ℚ) (now : String) : Except OrchError OrchState :=
  if (s.agents.find? (fun a => a.walletName = walletName)).isSome then
    Except.error (OrchError.DuplicateRegistration walletName)
  else
    match lookupWallet s.wallets walletName with
    | none => Except.error (OrchError.WalletNotFound walletName)
    | some pk =>
        let record : AgentRecord :=
          { id := newId
            walletName := walletName
            walletAddress := pk
            strategy := strategy
            createdAt := now
            solSpent := some 0
            spendingLimit := some (spendingLimit.getD DEFAULT_SPENDING_LIMIT)
            lastUpdated := some now }
        Except.ok { s with agents := s.agents ++ [record] }

/-- The record mutation performed by a successful `trackSpending`
(`record.solSpent = spent; record.lastUpdated = ...`). -/
def bumpRecord (r : AgentRecord) (sol : ℚ) (now : String) : AgentRecord :=
  { r with solSpent := some (r.solSpent.getD 0 + sol), lastUpdated := some now }

/-- `Orchestrator.trackSpending`. -/
def trackSpending (agents : List AgentRecord) (id : String) (sol : ℚ)
    (now : String) : Except OrchError (List AgentRecord) :=
  match findAgent agents id with
  | none => Except.error (OrchError.AgentNotFound id)
  | some record =>
      let spent := record.solSpent.getD 0 + sol
      let limit := record.spendingLimit.getD DEFAULT_SPENDING_LIMIT
      if limit < spent then Except.error (OrchError.LimitExceeded spent limit)
      else
        match updateList agents (bumpRecord record sol now) with
        | some agents1 => Except.ok agents1
        | none => Except.error (OrchError.AgentNotFound id)

/-- `Orchestrator.checkSpendingLimit`: same predicate, no mutation. -/
def checkSpendingLimit (agents : List AgentRecord) (id : String) (sol : ℚ) :
    Except OrchError Unit :=
  match findAgent agents id with
  | none => Except.error (OrchError.AgentNotFound id)
  | some record =>
      let spent := record.solSpent.getD 0 + sol
      let limit := record.spendingLimit.getD DEFAULT_SPENDING_LIMIT
      if limit < spent then Except.error (OrchError.LimitExceeded spent limit)
      else Except.ok ()

/-! ### Running-agent set and execution loops -/

/-- The runner stored in the `runningAgents` map. -/
inductive RunnerKind where
  | simple
  | trading
  | liquidity
deriving DecidableEq, Repr

/-- `"stop" in running.runner` — `SimpleAgentRunner` has no `stop`. -/
def runnerHasStop : RunnerKind → Bool
  | RunnerKind.simple => false
  | RunnerKind.trading => true
  | RunnerKind.liquidity => true

/-- `Map.set` on `runningAgents`. -/
def setRunning : List (String × RunnerKind) → String → RunnerKind →
    List (String × RunnerKind)
  | [], id, k => [(id, k)]
  | (j, k0) :: rest, id, k =>
      if j = id then (id, k) :: rest else (j, k0) :: setRunning rest id k

/-- `Map.delete` on `runningAgents`. -/
def removeRunning (running : List (String × RunnerKind)) (id : String) :
    List (String × RunnerKind) :=
  running.filter (fun p => p.1 ≠ id)

/-- `Orchestrator.isRunning`. -/
def isRunning (running : List (String × RunnerKind)) (id : String) : Bool :=
  (running.find? (fun p => p.1 = id)).isSome

/-- `Orchestrator.stopAgent`.  Returns the new running set, the new
registry, and whether a stop signal was actually delivered to a
runner (the `"stop" in running.runner` branch). -/
def stopAgent (running : List (String × RunnerKind))
    (agents : List AgentRecord) (id now : String) :
    List (String × RunnerKind) × List AgentRecord × Bool :=
  let step1 : List (String × RunnerKind) × Bool :=
    match running.find? (fun p => p.1 = id) with
    | some p => (removeRunning running id, runnerHasStop p.2)
    | none => (running, false)
  let agents1 :=
    match findAgent agents id with
    | some record =>
        match updateList agents { record with lastUpdated := some now } with
        | some l => l
        | none => agents
    | none => agents
  (step1.1, agents1, step1.2)

/-- The `for` loop of `SimpleAgentRunner.runSolTransferLoop`: `rolls i`
is the `Math.random()` draw of iteration `i`, `transfer i` the outcome
of `transferSol` there.  There is no cancellation input because
`SimpleAgentRunner` has no `stop` method or `running` flag, and no
`try`/`catch`: a failed transfer propagates. -/
def runSolTransferLoopGo (rolls : Nat → ℚ)
    (transfer : Nat → Except String String) (holdProbability : ℚ) :
    Nat → Nat → List String → Except String (List String)
  | 0, _, acc => Except.ok acc
  | Nat.succ n, i, acc =>
      if holdProbability ≤ rolls i then
        match transfer i with
        | Except.error e => Except.error e
        | Except.ok signature =>
            runSolTransferLoopGo rolls transfer holdProbability n (i + 1)
              (acc ++ [signature])
      else runSolTransferLoopGo rolls transfer holdProbability n (i + 1) acc

/-- `SimpleAgentRunner.runSolTransferLoop` (the pacing `sleep` has no
observable effect in the embedding). -/
def runSolTransferLoop (rolls : Nat → ℚ)
    (transfer : Nat → Except String String) (iterations : Nat)
    (holdProbability : ℚ) : Except String (List String) :=
  runSolTransferLoopGo rolls transfer holdProbability iterations 0 []

/-- `Orchestrator.runAgentLoop`: look up the record, load the wallet,
insert into the running set, run the loop, and delete from the set —
the delete is skipped if the loop throws, exactly as in the source. -/
def runAgentLoop (s : OrchState) (running : List (String × RunnerKind))
    (id : String) (rolls : Nat → ℚ)
    (transfer : Nat → Except String String) (iterations : Nat)
    (holdProbability : ℚ) :
    Except OrchError (List String) × List (String × RunnerKind) :=
  match findAgent s.agents id with
  | none => (Except.error (OrchError.AgentNotFound id), running)
  | some record =>
      match lookupWallet s.wallets record.walletName with
      | none =>
          (Except.error (OrchError.WalletNotFound record.walletName), running)
      | some _ =>
          let holdP := min (max holdProbability 0) 1
          let running1 := setRunning running id RunnerKind.simple
          match runSolTransferLoop rolls transfer iterations holdP with
          | Except.error e =>
              (Except.error (OrchError.TransferFailed e), running1)
          | Except.ok signatures =>
              (Except.ok signatures, removeRunning running1 id)

/-! ### Trading and liquidity loops

`TradingAgent.run` and `LiquidityAgent.run` each hold a `running` flag
that `stop()` clears.  Cooperative cancellation is modelled by a
signal `stopSig : Nat → Bool`: `stopSig t` says whether `stop()` has
been called before observation point `t`, where the loop-guard read of
`running` at iteration `i` is point `2 * i` and the pre-sleep read is
point `2 * i + 1`.  Per-iteration network outcomes are oracles;
`catch` blocks swallow errors (`console.error`) as in the source.  The
second component of each result lists the iterations that actually
paced (slept). -/

structure TradingConfig where
  targetMint : String
  buyThreshold : ℚ
  sellThreshold : ℚ
  tradeAmount : ℚ
  iterations : Nat
  intervalMs : Nat
deriving DecidableEq, Repr

inductive TradeAction where
  | buy
  | sell
  | hold
deriving DecidableEq, Repr

/-- `TradingAgent.evaluateMarket`. -/
def evaluateMarket (price : ℚ) (cfg : TradingConfig) : TradeAction :=
  if price < cfg.buyThreshold then TradeAction.buy
  else if cfg.sellThreshold < price then TradeAction.sell
  else TradeAction.hold

/-- The body of `TradingAgent.run`: `factor i` is the random price
fluctuation of iteration `i`, `mintResult i`/`transferResult i` the
outcomes of the two possible network actions, `balance i` the observed
balance of the target mint. -/
def tradingRunGo (cfg : TradingConfig) (factor : Nat → ℚ)
    (mintResult transferResult : Nat → Except String String)
    (balance : Nat → Option ℚ) (stopSig : Nat → Bool) :
    Nat → Nat → ℚ → List String × List Nat
  | 0, _, _ => ([], [])
  | Nat.succ n, i, price =>
      if stopSig (2 * i) then ([], [])
      else
        let price1 := price * factor i
        let sigs :=
          match evaluateMarket price1 cfg with
          | TradeAction.buy =>
              match mintResult i with
              | Except.ok s => [s]
              | Except.error _ => []
          | TradeAction.sell =>
              match balance i with
              | some b =>
                  if 0 < b then
                    match transferResult i with
                    | Except.ok s => [s]
                    | Except.error _ => []
                  else []
              | none => []
          | TradeAction.hold => []
        let slept :=
          if 0 < cfg.intervalMs ∧ i < cfg.iterations - 1 ∧
              ¬ stopSig (2 * i + 1) then [i] else []
        let rest :=
          tradingRunGo cfg factor mintResult transferResult balance stopSig
            n (i + 1) price1
        (sigs ++ rest.1, slept ++ rest.2)

/-- `TradingAgent.run` (`mockPrice` starts at `1.0`). -/
def tradingRun (cfg : TradingConfig) (factor : Nat → ℚ)
    (mintResult transferResult : Nat → Except String String)
    (balance : Nat → Option ℚ) (stopSig : Nat → Bool) :
    List String × List Nat :=
  tradingRunGo cfg factor mintResult transferResult balance stopSig
    cfg.iterations 0 1

structure LiquidityConfig where
  poolMint : String
  minBalance : ℚ
  maxBalance : ℚ
  rebalanceAmount : ℚ
  iterations : Nat
  intervalMs : Nat
deriving DecidableEq, Repr

inductive LiquidityAction where
  | add
  | remove
  | hold
deriving DecidableEq, Repr

/-- `LiquidityAgent.evaluateBalance`. -/
def evaluateBalance (balance : ℚ) (cfg : LiquidityConfig) : LiquidityAction :=
  if balance < cfg.minBalance then LiquidityAction.add
  else if cfg.maxBalance < balance then LiquidityAction.remove
  else LiquidityAction.hold

/-- The body of `LiquidityAgent.run`. -/
def liquidityRunGo (cfg : LiquidityConfig)
    (mintResult transferResult : Nat → Except String String)
    (balance : Nat → Option ℚ) (stopSig : Nat → Bool) :
    Nat → Nat → List String × List Nat
  | 0, _ => ([], [])
  | Nat.succ n, i =>
      if stopSig (2 * i) then ([], [])
      else
        let currentBalance := (balance i).getD 0
        let sigs :=
          match evaluateBalance currentBalance cfg with
          | LiquidityAction.add =>
              match mintResult i with
              | Except.ok s => [s]
              | Except.error _ => []
          | LiquidityAction.remove =>
              if 0 < currentBalance then
                match transferResult i with
                | Except.ok s => [s]
                | Except.error _ => []
              else []
          | LiquidityAction.hold => []
        let slept :=
          if 0 < cfg.intervalMs ∧ i < cfg.iterations - 1 ∧
              ¬ stopSig (2 * i + 1) then [i] else []
        let rest :=
          liquidityRunGo cfg mintResult transferResult balance stopSig
            n (i + 1)
        (sigs ++ rest.1, slept ++ rest.2)

/-- `LiquidityAgent.run`. -/
def liquidityRun (cfg : LiquidityConfig)
    (mintResult transferResult : Nat → Except String String)
    (balance : Nat → Option ℚ) (stopSig : Nat → Bool) :
    List String × List Nat :=
  liquidityRunGo cfg mintResult transferResult balance stopSig
    cfg.iterations 0

/-! ## Registry support lemmas -/

theorem findAgent_some_id {agents : List AgentRecord} {id : String}
    {r : AgentRecord} (h : findAgent agents id = some r) : r.id = id := by
  induction agents with
  | nil => simp [findAgent] at h
  | cons a rest ih =>
      by_cases ha : a.id = id
      · rw [findAgent, if_pos ha] at h
        cases h
        exact ha
      · rw [findAgent, if_neg ha] at h
        exact ih h

theorem updateList_findAgent {agents : List AgentRecord} {id : String}
    {r r2 : AgentRecord} (h : findAgent agents id = some r)
    (h2 : r2.id = id) :
    ∃ l, updateList agents r2 = some l ∧ findAgent l id = some r2 := by
  induction agents with
  | nil => simp [findAgent] at h
  | cons a rest ih =>
      by_cases ha : a.id = id
      · refine ⟨r2 :: rest, ?_, ?_⟩
        · rw [updateList, if_pos (by rw [ha, h2])]
        · rw [findAgent, if_pos h2]
      · rw [findAgent, if_neg ha] at h
        obtain ⟨l, hl, hfind⟩ := ih h
        refine ⟨a :: l, ?_, ?_⟩
        · rw [updateList, if_neg (by rw [h2]; exact ha), hl]
          rfl
        · rw [findAgent, if_neg ha]
          exact hfind

/-- The per-agent spending invariant of the spec:
`solSpent <= spendingLimit` for the record stored under `id`. -/
def spendInvariant (agents : List AgentRecord) (id : String) : Prop :=
  ∀ r, findAgent agents id = some r →
    r.solSpent.getD 0 ≤ r.spendingLimit.getD DEFAULT_SPENDING_LIMIT

/-- One `trackSpending` call as a state transformer: a failed call
leaves the registry as it was. -/
def applyTrack (agents : List AgentRecord) (id : String) (c : ℚ × String) :
    List AgentRecord :=
  match trackSpending agents id c.1 c.2 with
  | Except.ok agents1 => agents1
  | Except.error _ => agents

theorem trackSpending_ok_spec {agents agents1 : List AgentRecord}
    {id : String} {sol : ℚ} {now : String}
    (h : trackSpending agents id sol now = Except.ok agents1) :
    ∃ r, findAgent agents id = some r ∧
      r.solSpent.getD 0 + sol ≤ r.spendingLimit.getD DEFAULT_SPENDING_LIMIT ∧
      findAgent agents1 id = some (bumpRecord r sol now) := by
  unfold trackSpending at h
  cases hfind : findAgent agents id with
  | none => rw [hfind] at h; exact absurd h (by simp)
  | some r =>
      rw [hfind] at h
      simp only at h
      by_cases hlim :
          r.spendingLimit.getD DEFAULT_SPENDING_LIMIT < r.solSpent.getD 0 + sol
      · rw [if_pos hlim] at h
        exact absurd h (by simp)
      · rw [if_neg hlim] at h
        have h2 : (bumpRecord r sol now).id = id := by
          simpa [bumpRecord] using findAgent_some_id hfind
        obtain ⟨l, hl, hfind1⟩ := updateList_findAgent hfind h2
        rw [hl] at h
        cases h
        exact ⟨r, rfl, le_of_not_lt hlim, hfind1⟩

theorem trackSpending_limit_exceeded {agents : List AgentRecord}
    {id : String} {r : AgentRecord} {sol : ℚ} (now : String)
    (hfind : findAgent agents id = some r)
    (hlim : r.spendingLimit.getD DEFAULT_SPENDING_LIMIT <
      r.solSpent.getD 0 + sol) :
    trackSpending agents id sol now =
      Except.error (OrchError.LimitExceeded (r.solSpent.getD 0 + sol)
        (r.spendingLimit.getD DEFAULT_SPENDING_LIMIT)) := by
  unfold trackSpending
  rw [hfind]
  simp only
  rw [if_pos hlim]

theorem applyTrack_error {agents : List AgentRecord} {id : String}
    {c : ℚ × String} (h : ∃ e, trackSpending agents id c.1 c.2 =
      Except.error e) : applyTrack agents id c = agents := by
  obtain ⟨e, he⟩ := h
  unfold applyTrack
  rw [he]

theorem applyTrack_invariant (agents : List AgentRecord) (id : String)
    (c : ℚ × String) (h : spendInvariant agents id) :
    spendInvariant (applyTrack agents id c) id := by
  unfold applyTrack
  cases htrack : trackSpending agents id c.1 c.2 with
  | error e => exact h
  | ok agents1 =>
      obtain ⟨r, _, hle, hfind1⟩ := trackSpending_ok_spec htrack
      intro r2 hr2
      rw [hfind1] at hr2
      cases hr2
      simpa [bumpRecord] using hle

theorem foldl_applyTrack_invariant (agents : List AgentRecord) (id : String)
    (calls : List (ℚ × String)) (h : spendInvariant agents id) :
    spendInvariant (calls.foldl (fun st c => applyTrack st id c) agents)
      id := by
  induction calls generalizing agents with
  | nil => exact h
  | cons c rest ih =>
      exact ih (applyTrack agents id c) (applyTrack_invariant agents id c h)

/-! ## Claim theorems -/

/-- Sample registry used by witnesses: a freshly spawned agent. -/
def sampleRecord : AgentRecord :=
  { id := "a"
    walletName := "w"
    walletAddress := "PK"
    strategy := "simple"
    createdAt := "t0"
    solSpent := some 0
    spendingLimit := some 1
    lastUpdated := some "t0" }

def sampleAgents : List AgentRecord := [sampleRecord]

/-- Completeness of `trackSpending`: a call that keeps the invariant
(record found, `solSpent + sol <= limit`) succeeds and stores the
bumped record. -/
theorem trackSpending_within_limit_ok {agents : List AgentRecord}
    {id : String} {r : AgentRecord} (sol : ℚ) (now : String)
    (hfind : findAgent agents id = some r)
    (hle : r.solSpent.getD 0 + sol ≤
      r.spendingLimit.getD DEFAULT_SPENDING_LIMIT) :
    ∃ agents1, trackSpending agents id sol now = Except.ok agents1 ∧
      findAgent agents1 id = some (bumpRecord r sol now) := by
  have h2 : (bumpRecord r sol now).id = id := by
    simpa [bumpRecord] using findAgent_some_id hfind
  obtain ⟨l, hl, hfind1⟩ := updateList_findAgent hfind h2
  refine ⟨l, ?_, hfind1⟩
  unfold trackSpending
  rw [hfind]
  simp only
  rw [if_neg (not_lt.mpr hle), hl]

/-- Evaluation lemma: `trackSpending` on a one-record registry when
the limit is respected. -/
theorem trackSpending_single_ok (r : AgentRecord) (id : String) (sol : ℚ)
    (now : String) (hid : r.id = id)
    (hle : r.solSpent.getD 0 + sol ≤
      r.spendingLimit.getD DEFAULT_SPENDING_LIMIT) :
    trackSpending [r] id sol now = Except.ok [bumpRecord r sol now] := by
  unfold trackSpending
  rw [show findAgent [r] id = some r from by rw [findAgent, if_pos hid]]
  simp only
  rw [if_neg (not_lt.mpr hle)]
  rw [show updateList [r] (bumpRecord r sol now) = some [bumpRecord r sol now]
    from by rw [updateList, if_pos (by simp [bumpRecord, hid])]]

theorem sampleAgents_invariant : spendInvariant sampleAgents "a" := by
  intro r hr
  rw [show findAgent sampleAgents "a" = some sampleRecord from rfl] at hr
  cases hr
  norm_num [sampleRecord]

/-- C1: for every sequence of `trackSpending` calls on one agent,
`solSpent <= spendingLimit` holds after every prefix; a call that
would push `solSpent + amount` over `spendingLimit` fails with
`LimitExceeded` and leaves the registry unchanged; a successful call
increments `solSpent` by the amount and updates `lastUpdated`; and
conversely every invariant-keeping call (record found,
`solSpent + amount <= spendingLimit`) succeeds, storing exactly the
incremented record. -/
theorem trackSpending_spending_invariant (agents : List AgentRecord)
    (id : String) (hinit : spendInvariant agents id) :
    (∀ calls : List (ℚ × String),
      spendInvariant (calls.foldl (fun st c => applyTrack st id c) agents) id)
    ∧ (∀ st : List AgentRecord, ∀ r : AgentRecord, ∀ sol : ℚ, ∀ now : String,
        findAgent st id = some r →
        r.spendingLimit.getD DEFAULT_SPENDING_LIMIT < r.solSpent.getD 0 + sol →
        trackSpending st id sol now =
          Except.error (OrchError.LimitExceeded (r.solSpent.getD 0 + sol)
            (r.spendingLimit.getD DEFAULT_SPENDING_LIMIT))
        ∧ applyTrack st id (sol, now) = st)
    ∧ (∀ st agents1 : List AgentRecord, ∀ sol : ℚ, ∀ now : String,
        trackSpending st id sol now = Except.ok agents1 →
        ∃ r, findAgent st id = some r ∧
          findAgent agents1 id = some (bumpRecord r sol now))
    ∧ (∀ st : List AgentRecord, ∀ r : AgentRecord, ∀ sol : ℚ, ∀ now : String,
        findAgent st id = some r →
        r.solSpent.getD 0 + sol ≤
          r.spendingLimit.getD DEFAULT_SPENDING_LIMIT →
        ∃ agents1, trackSpending st id sol now = Except.ok agents1 ∧
          findAgent agents1 id = some (bumpRecord r sol now)) := by
  refine ⟨fun calls => foldl_applyTrack_invariant agents id calls hinit,
    ?_, ?_, ?_⟩
  · intro st r sol now hfind hlim
    have herr := trackSpending_limit_exceeded now hfind hlim
    exact ⟨herr, applyTrack_error ⟨_, herr⟩⟩
  · intro st agents1 sol now h
    obtain ⟨r, hfind, _, hfind1⟩ := trackSpending_ok_spec h
    exact ⟨r, hfind, hfind1⟩
  · intro st r sol now hfind hle
    exact trackSpending_within_limit_ok sol now hfind hle

/-- Witness for C1 at a concrete freshly spawned agent: the prefix
invariant over a concrete call sequence, and a concrete within-limit
call that succeeds and stores the incremented record. -/
theorem trackSpending_spending_invariant_witness :
    spendInvariant
      (([((1 : ℚ) / 2, "t1"), ((3 : ℚ) / 5, "t2")].foldl
        (fun st c => applyTrack st "a" c) sampleAgents)) "a"
    ∧ ∃ agents1, trackSpending sampleAgents "a" ((1 : ℚ) / 2) "t1" =
        Except.ok agents1 ∧
      findAgent agents1 "a" =
        some (bumpRecord sampleRecord ((1 : ℚ) / 2) "t1") :=
  ⟨(trackSpending_spending_invariant sampleAgents "a"
      sampleAgents_invariant).1 [((1 : ℚ) / 2, "t1"), ((3 : ℚ) / 5, "t2")],
    (trackSpending_spending_invariant sampleAgents "a"
      sampleAgents_invariant).2.2.2 sampleAgents sampleRecord ((1 : ℚ) / 2)
      "t1" rfl
      (by norm_num [sampleRecord, DEFAULT_SPENDING_LIMIT])⟩

/-- An agent that has already spent half of its 1-SOL limit. -/
def halfSpentRecord : AgentRecord :=
  { id := "a"
    walletName := "w"
    walletAddress := "PK"
    strategy := "simple"
    createdAt := "t0"
    solSpent := some (1 / 2)
    spendingLimit := some 1
    lastUpdated := some "t0" }

/-- C10 counterexample: `trackSpending` accepts a negative amount, so
a successful call can strictly decrease `solSpent`: with
`solSpent = 1/2`, the call `trackSpending(id, -1/2)` succeeds and
leaves `solSpent = 0 < 1/2`. -/
theorem trackSpending_not_monotone :
    trackSpending [halfSpentRecord] "a" (-(1 / 2 : ℚ)) "t1" =
      Except.ok [bumpRecord halfSpentRecord (-(1 / 2 : ℚ)) "t1"]
    ∧ (bumpRecord halfSpentRecord (-(1 / 2 : ℚ)) "t1").solSpent.getD 0 <
      halfSpentRecord.solSpent.getD 0 := by
  constructor
  · exact trackSpending_single_ok halfSpentRecord "a" (-(1 / 2 : ℚ)) "t1" rfl
      (by norm_num [halfSpentRecord, DEFAULT_SPENDING_LIMIT])
  · norm_num [bumpRecord, halfSpentRecord]

/-- C10 amended: for non-negative amounts a successful `trackSpending`
never decreases `solSpent`, and a spawned agent starts at
`solSpent = 0`. -/
theorem trackSpending_monotone_nonneg (agents agents1 : List AgentRecord)
    (id : String) (sol : ℚ) (now : String) (hsol : 0 ≤ sol)
    (h : trackSpending agents id sol now = Except.ok agents1) :
    (∃ r, findAgent agents id = some r ∧
      findAgent agents1 id = some (bumpRecord r sol now) ∧
      r.solSpent.getD 0 ≤ (bumpRecord r sol now).solSpent.getD 0)
    ∧ ∀ s : OrchState, ∀ newId pk strategy name : String,
        ∀ lim : Option ℚ, ∀ tnow : String,
        ((spawnAgent s newId pk strategy name lim tnow).agents.getLast?).map
            (fun r => r.solSpent) = some (some 0) := by
  constructor
  · obtain ⟨r, hfind, _, hfind1⟩ := trackSpending_ok_spec h
    refine ⟨r, hfind, hfind1, ?_⟩
    simp only [bumpRecord, Option.getD_some]
    linarith
  · intro s newId pk strategy name lim tnow
    simp [spawnAgent]

/-- C10 amended witness: a concrete non-negative spend on a freshly
spawned agent. -/
theorem trackSpending_monotone_nonneg_witness :
    (∃ r, findAgent sampleAgents "a" = some r ∧
      findAgent [bumpRecord sampleRecord ((1 : ℚ) / 2) "t1"] "a" =
        some (bumpRecord r ((1 : ℚ) / 2) "t1") ∧
      r.solSpent.getD 0 ≤
        (bumpRecord r ((1 : ℚ) / 2) "t1").solSpent.getD 0)
    ∧ ∀ s : OrchState, ∀ newId pk strategy name : String,
        ∀ lim : Option ℚ, ∀ tnow : String,
        ((spawnAgent s newId pk strategy name lim tnow).agents.getLast?).map
            (fun r => r.solSpent) = some (some 0) :=
  trackSpending_monotone_nonneg sampleAgents
    [bumpRecord sampleRecord ((1 : ℚ) / 2) "t1"] "a" ((1 : ℚ) / 2) "t1"
    (by norm_num)
    (trackSpending_single_ok sampleRecord "a" ((1 : ℚ) / 2) "t1" rfl
      (by norm_num [sampleRecord, DEFAULT_SPENDING_LIMIT]))

/-! ## Registry duplicate registration (C9) -/

/-- Records registered for one wallet name. -/
def countByName (agents : List AgentRecord) (w : String) : Nat :=
  (agents.filter (fun a => a.walletName = w)).length

def countAgents (s : OrchState) (w : String) : Nat :=
  countByName s.agents w

/-- One `promoteWallet` call as a state transformer (failure leaves
the registry unchanged). -/
def applyPromote (s : OrchState) (newId strategy walletName : String)
    (lim : Option ℚ) (now : String) : OrchState :=
  match promoteWallet s newId strategy walletName lim now with
  | Except.ok s1 => s1
  | Except.error _ => s

/-- At most one agent record per wallet name. -/
def atMostOne (s : OrchState) : Prop := ∀ w, countAgents s w ≤ 1

theorem countByName_append (l1 l2 : List AgentRecord) (w : String) :
    countByName (l1 ++ l2) w = countByName l1 w + countByName l2 w := by
  simp [countByName, List.filter_append]

theorem find?_walletName_isSome (agents : List AgentRecord) (w : String) :
    (agents.find? (fun a => a.walletName = w)).isSome ↔
      0 < countByName agents w := by
  rw [List.find?_isSome, countByName, List.length_pos]
  constructor
  · rintro ⟨a, ha, hp⟩
    intro hnil
    have hmem : a ∈ agents.filter (fun a => a.walletName = w) :=
      List.mem_filter.mpr ⟨ha, hp⟩
    rw [hnil] at hmem
    exact absurd hmem (List.not_mem_nil a)
  · intro hne
    obtain ⟨a, ha⟩ := List.exists_mem_of_ne_nil _ hne
    exact ⟨a, (List.mem_filter.mp ha).1, (List.mem_filter.mp ha).2⟩

/-- A wallet that exists in the keystore but has no agent record yet. -/
def bareWalletState : OrchState :=
  { wallets := [("x", "PKX")], agents := [] }

/-- C9 counterexample: starting from a keystore that already holds
wallet `x` and an empty registry, `promote(x)` followed by a single
`spawn` with wallet name `x` (no wallet-name reuse across spawn calls)
leaves two agent records for `x`: `spawnAgent` never checks the
registry for an existing record. -/
theorem promote_then_spawn_duplicate :
    countAgents
      (spawnAgent (applyPromote bareWalletState "id1" "simple" "x" none "t1")
        "id2" "PK2" "simple" "x" none "t2") "x" = 2 := by
  decide

/-- C9 amended: `promote` on an already-registered wallet name fails
with `DuplicateRegistration` and leaves the registry with exactly one
record for that wallet; at-most-one-record-per-walletName is preserved
by every `promote` and by every `spawn` whose wallet name has no
record at the time of the call. -/
theorem promote_duplicate_protection (s : OrchState) :
    (∀ w newId strategy : String, ∀ lim : Option ℚ, ∀ now : String,
      countAgents s w = 1 →
      promoteWallet s newId strategy w lim now =
        Except.error (OrchError.DuplicateRegistration w) ∧
      countAgents (applyPromote s newId strategy w lim now) w = 1)
    ∧ (atMostOne s → ∀ newId strategy w : String, ∀ lim : Option ℚ,
        ∀ now : String, atMostOne (applyPromote s newId strategy w lim now))
    ∧ (atMostOne s → ∀ newId pk strategy w : String, ∀ lim : Option ℚ,
        ∀ now : String, countAgents s w = 0 →
        atMostOne (spawnAgent s newId pk strategy w lim now)) := by
  refine ⟨?_, ?_, ?_⟩
  · intro w newId strategy lim now hcount
    simp only [countAgents] at hcount
    have hsome : (s.agents.find? (fun a => a.walletName = w)).isSome := by
      rw [find?_walletName_isSome]
      omega
    have herr : promoteWallet s newId strategy w lim now =
        Except.error (OrchError.DuplicateRegistration w) := by
      unfold promoteWallet
      rw [if_pos hsome]
    refine ⟨herr, ?_⟩
    unfold applyPromote
    rw [herr]
    exact hcount
  · intro hmo newId strategy w lim now
    unfold applyPromote
    cases hp : promoteWallet s newId strategy w lim now with
    | error e => exact hmo
    | ok s1 =>
        unfold promoteWallet at hp
        by_cases hsome : (s.agents.find? (fun a => a.walletName = w)).isSome
        · rw [if_pos hsome] at hp
          exact absurd hp (by simp)
        · rw [if_neg hsome] at hp
          have hzero : countByName s.agents w = 0 := by
            by_contra hne
            exact hsome
              ((find?_walletName_isSome s.agents w).mpr (by omega))
          cases hlook : lookupWallet s.wallets w with
          | none => rw [hlook] at hp; exact absurd hp (by simp)
          | some pk =>
              rw [hlook] at hp
              simp only [Except.ok.injEq] at hp
              intro w2
              subst hp
              simp only [countAgents, countByName_append]
              by_cases hw : w = w2
              · subst hw
                have h1 : countByName
                    [({ id := newId, walletName := w, walletAddress := pk,
                        strategy := strategy, createdAt := now,
                        solSpent := some 0,
                        spendingLimit := some (lim.getD DEFAULT_SPENDING_LIMIT),
                        lastUpdated := some now } : AgentRecord)] w = 1 := by
                  simp [countByName]
                rw [h1]
                simp only [countAgents] at hzero ⊢
                omega
              · have h1 : countByName
                    [({ id := newId, walletName := w, walletAddress := pk,
                        strategy := strategy, createdAt := now,
                        solSpent := some 0,
                        spendingLimit := some (lim.getD DEFAULT_SPENDING_LIMIT),
                        lastUpdated := some now } : AgentRecord)] w2 = 0 := by
                  simp [countByName, hw]
                rw [h1]
                have := hmo w2
                simp only [countAgents] at this ⊢
                omega
  · intro hmo newId pk strategy w lim now hzero w2
    simp only [atMostOne, countAgents, spawnAgent, countByName_append]
    by_cases hw : w = w2
    · subst hw
      have h1 : countByName
          [({ id := newId, walletName := w, walletAddress := pk,
              strategy := strategy, createdAt := now, solSpent := some 0,
              spendingLimit := some (lim.getD DEFAULT_SPENDING_LIMIT),
              lastUpdated := some now } : AgentRecord)] w = 1 := by
        simp [countByName]
      rw [h1]
      simp only [countAgents] at hzero
      omega
    · have h1 : countByName
          [({ id := newId, walletName := w, walletAddress := pk,
              strategy := strategy, createdAt := now, solSpent := some 0,
              spendingLimit := some (lim.getD DEFAULT_SPENDING_LIMIT),
              lastUpdated := some now } : AgentRecord)] w2 = 0 := by
        simp [countByName, hw]
      rw [h1]
      have := hmo w2
      simp only [countAgents] at this
      omega

/-- C9 amended witness: a registry holding exactly one record for
wallet `x`; the duplicate `promote` is rejected and the count stays 1. -/
theorem promote_duplicate_protection_witness :
    promoteWallet
        { wallets := [("x", "PKX")],
          agents := [{ id := "id1", walletName := "x", walletAddress := "PKX",
                       strategy := "simple", createdAt := "t1",
                       solSpent := some 0, spendingLimit := some 1,
                       lastUpdated := some "t1" }] } "id2" "simple" "x" none
        "t2" = Except.error (OrchError.DuplicateRegistration "x")
    ∧ countAgents
        (applyPromote
          { wallets := [("x", "PKX")],
            agents := [{ id := "id1", walletName := "x", walletAddress := "PKX",
                         strategy := "simple", createdAt := "t1",
                         solSpent := some 0, spendingLimit := some 1,
                         lastUpdated := some "t1" }] } "id2" "simple" "x" none
          "t2") "x" = 1 :=
  (promote_duplicate_protection
    { wallets := [("x", "PKX")],
      agents := [{ id := "id1", walletName := "x", walletAddress := "PKX",
                   strategy := "simple", createdAt := "t1",
                   solSpent := some 0, spendingLimit := some 1,
                   lastUpdated := some "t1" }] }).1 "x" "id2" "simple" none
    "t2" (by decide)

/-! ## Duplicate concurrent runs (C6) -/

/-- A registry state whose single agent `a` owns wallet `w`. -/
def runState : OrchState :=
  { wallets := [("w", "PK")], agents := [sampleRecord] }

/-- C6: `runAgentLoop` never consults the Running-Agent Set.  With
agent `a` already present in the set, the call is not rejected or
queued: it overwrites the entry and runs a full second loop to
completion.  This contradicts the repository's own architecture
document ("The `runningAgents` Map ... preventing duplicate runs"). -/
theorem runAgentLoop_ignores_running_set :
    isRunning [("a", RunnerKind.simple)] "a" = true
    ∧ (runAgentLoop runState [("a", RunnerKind.simple)] "a" (fun _ => 1)
        (fun i => Except.ok (toString i)) 3 0).1 =
      Except.ok ["0", "1", "2"] := by
  exact ⟨rfl, rfl⟩

/-! ## Allowlist validation (C4) -/

theorem isAllowed_ne_nil (allow : List String) (h : allow ≠ [])
    (p : String) : isAllowed allow p = allow.contains p := by
  unfold isAllowed
  rw [if_neg (by simpa [List.length_eq_zero] using h)]

theorem validateLoop_ok_iff (allow : List String) (l : List Instruction) :
    validateLoop allow l = Except.ok () ↔
      ∀ i ∈ l, isAllowed allow i.programId := by
  induction l with
  | nil => simp [validateLoop]
  | cons a rest ih =>
      by_cases ha : isAllowed allow a.programId
      · rw [validateLoop, if_pos ha]
        simp [ha, ih]
      · rw [validateLoop, if_neg ha]
        simp only [Bool.not_eq_true] at ha
        simp [ha]

theorem validateLoop_first (allow : List String) (l : List Instruction)
    (i : Instruction)
    (h : l.find? (fun j => ! isAllowed allow j.programId) = some i) :
    validateLoop allow l =
      Except.error (WalletError.PolicyViolation i.programId) := by
  induction l with
  | nil => simp at h
  | cons a rest ih =>
      by_cases ha : isAllowed allow a.programId
      · rw [List.find?_cons_of_neg _ (by simp [ha])] at h
        rw [validateLoop, if_pos ha]
        exact ih h
      · rw [List.find?_cons_of_pos _ (by simp [ha])] at h
        cases h
        rw [validateLoop, if_neg ha]

/-- C4: with an empty allow-set `validateTransaction` accepts every
transaction; it succeeds exactly when the set is empty or every
instruction's program is in the set, and otherwise it reports the
first disallowed program in its `PolicyViolation`. -/
theorem validateTransaction_spec (allowedPrograms : List String)
    (tx : Transaction) :
    (allowedPrograms = [] →
      validateTransaction allowedPrograms tx = Except.ok ())
    ∧ (validateTransaction allowedPrograms tx = Except.ok () ↔
        (allowedPrograms = [] ∨
          ∀ i ∈ tx.instructions, allowedPrograms.contains i.programId))
    ∧ (allowedPrograms ≠ [] →
        ∀ i : Instruction,
          tx.instructions.find?
            (fun j => ! isAllowed allowedPrograms j.programId) = some i →
          validateTransaction allowedPrograms tx =
            Except.error (WalletError.PolicyViolation i.programId)) := by
  by_cases hnil : allowedPrograms = []
  · have hok : validateTransaction allowedPrograms tx = Except.ok () := by
      unfold validateTransaction
      rw [if_pos (by simp [hnil])]
    exact ⟨fun _ => hok, by rw [hok]; simp [hnil], fun h => absurd hnil h⟩
  · have hv : validateTransaction allowedPrograms tx =
        validateLoop allowedPrograms tx.instructions := by
      unfold validateTransaction
      rw [if_neg (by simpa [List.length_eq_zero] using hnil)]
    refine ⟨fun h => absurd h hnil, ?_, ?_⟩
    · rw [hv, validateLoop_ok_iff]
      constructor
      · intro h
        refine Or.inr (fun i hi => ?_)
        rw [← isAllowed_ne_nil allowedPrograms hnil]
        exact h i hi
      · rintro (h | h)
        · exact absurd h hnil
        · intro i hi
          rw [isAllowed_ne_nil allowedPrograms hnil]
          exact h i hi
    · intro _ i hfind
      rw [hv]
      exact validateLoop_first allowedPrograms tx.instructions i hfind

/-- C4 witness: allow-set `{p}`, a transaction whose instructions
target `p` then `q`; validation names `q`. -/
theorem validateTransaction_spec_witness :
    validateTransaction ["p"]
        { instructions := [{ programId := "p" }, { programId := "q" }],
          feePayer := none, recentBlockhash := none } =
      Except.error (WalletError.PolicyViolation "q") :=
  (validateTransaction_spec ["p"]
    { instructions := [{ programId := "p" }, { programId := "q" }],
      feePayer := none, recentBlockhash := none }).2.2 (by decide)
    { programId := "q" } (by decide)

/-! ## Pipeline ordering (C3) -/

/-- C3: the allowlist check is always the first step of
`sendTransaction`; a policy rejection produces a trace containing no
simulation and no submission; and when simulation is not skipped and
reports an error, the call fails with `SimulationFailed` carrying that
error and no submission step occurs. -/
theorem sendTransaction_policy_before_network (allowedPrograms : List String)
    (simulate : Transaction → Option String) (koraEnabled : Bool)
    (koraSig rpcSig : String) (tx : Transaction) (skipSimulation : Bool) :
    ((sendTransaction allowedPrograms simulate koraEnabled koraSig rpcSig tx
        skipSimulation).2.head? = some Step.validate)
    ∧ (∀ p : String,
        (sendTransaction allowedPrograms simulate koraEnabled koraSig rpcSig
            tx skipSimulation).1 =
          Except.error (WalletError.PolicyViolation p) →
        (sendTransaction allowedPrograms simulate koraEnabled koraSig rpcSig
            tx skipSimulation).2 = [Step.validate])
    ∧ (skipSimulation = false →
        validateTransaction allowedPrograms tx = Except.ok () →
        ∀ err, simulate tx = some err →
          (sendTransaction allowedPrograms simulate koraEnabled koraSig
              rpcSig tx skipSimulation).1 =
            Except.error (WalletError.SimulationFailed err)
          ∧ ∀ st ∈ (sendTransaction allowedPrograms simulate koraEnabled
              koraSig rpcSig tx skipSimulation).2, isSubmit st = false) := by
  unfold sendTransaction
  cases hval : validateTransaction allowedPrograms tx with
  | error e =>
      refine ⟨rfl, fun p hp => rfl, ?_⟩
      intro hskip hok
      exact absurd hok (by simp)
  | ok u =>
      cases u
      cases skipSimulation with
      | true =>
          cases koraEnabled with
          | true =>
              refine ⟨rfl, fun p hp => absurd hp (by simp), ?_⟩
              intro hskip
              exact absurd hskip (by simp)
          | false =>
              refine ⟨rfl, fun p hp => absurd hp (by simp), ?_⟩
              intro hskip
              exact absurd hskip (by simp)
      | false =>
          cases hsim : simulate tx with
          | some err =>
              refine ⟨rfl, fun p hp => absurd hp (by simp), ?_⟩
              intro _ _ err2 herr2
              cases herr2
              refine ⟨rfl, ?_⟩
              show ∀ st ∈ [Step.validate, Step.simulate], isSubmit st = false
              decide
          | none =>
              cases koraEnabled with
              | true =>
                  refine ⟨rfl, fun p hp => absurd hp (by simp), ?_⟩
                  intro _ _ err2 herr2
                  exact absurd herr2 (by simp)
              | false =>
                  refine ⟨rfl, fun p hp => absurd hp (by simp), ?_⟩
                  intro _ _ err2 herr2
                  exact absurd herr2 (by simp)

/-- C3 witness: empty allow-set (validation passes), simulation
reports `boom`; the call fails with `SimulationFailed "boom"` and no
submission step appears in the trace. -/
theorem sendTransaction_policy_before_network_witness :
    (sendTransaction [] (fun _ => some "boom") false "k" "r"
        { instructions := [], feePayer := none, recentBlockhash := none }
        false).1 = Except.error (WalletError.SimulationFailed "boom")
    ∧ ∀ st ∈ (sendTransaction [] (fun _ => some "boom") false "k" "r"
        { instructions := [], feePayer := none, recentBlockhash := none }
        false).2, isSubmit st = false :=
  (sendTransaction_policy_before_network [] (fun _ => some "boom") false
    "k" "r" { instructions := [], feePayer := none, recentBlockhash := none }
    false).2.2 rfl rfl "boom" rfl

/-! ## Key custody round trip (C2) -/

/-- C2: decrypting the stored record produced by `encryptKeypair`
under the same passphrase yields a keypair with matching public key
and byte-identical secret key (`decryptKeypair` is a left inverse of
`encryptKeypair`).  The hypotheses state that the inputs are byte
lists (as produced by `randomBytes` and `Keypair.generate`) and that
the keypair's public key is the one derived from its secret key. -/
theorem decryptKeypair_encryptKeypair (passphrase : String)
    (iv salt : List Nat) (now name : String) (kp : Keypair)
    (hsk : ∀ b ∈ kp.secretKey, b < 256)
    (hiv : ∀ b ∈ iv, b < 256) (hsalt : ∀ b ∈ salt, b < 256)
    (hpk : kp.publicKey = pubkeyOf kp.secretKey) :
    ∃ kp2, decryptKeypair passphrase
        (encryptKeypair passphrase iv salt now name kp) = some kp2
      ∧ kp2.publicKey = kp.publicKey ∧ kp2.secretKey = kp.secretKey := by
  have hct : ∀ b ∈ xorBytes kp.secretKey
      (keystream (deriveKey passphrase salt) iv kp.secretKey.length),
      b < 256 :=
    xorBytes_lt _ _ hsk (keystream_lt (deriveKey passphrase salt) iv _)
  have hctlen : (xorBytes kp.secretKey
      (keystream (deriveKey passphrase salt) iv
        kp.secretKey.length)).length = kp.secretKey.length := by
    rw [xorBytes_length, keystream_length]
    exact min_self _
  have hdec : decryptKeypair passphrase
      (encryptKeypair passphrase iv salt now name kp) =
      some (Keypair.fromSecretKey
        (xorBytes
          (xorBytes kp.secretKey
            (keystream (deriveKey passphrase salt) iv kp.secretKey.length))
          (keystream (deriveKey passphrase salt) iv
            (xorBytes kp.secretKey
              (keystream (deriveKey passphrase salt) iv
                kp.secretKey.length)).length))) := by
    unfold decryptKeypair encryptKeypair
    simp only
    rw [b64decode_b64encode iv hiv, b64decode_b64encode salt hsalt,
        b64decode_b64encode _ hct,
        b64decode_b64encode _ (gcmTag_lt (deriveKey passphrase salt) iv _)]
    rw [if_pos rfl]
  have hinv : xorBytes
      (xorBytes kp.secretKey
        (keystream (deriveKey passphrase salt) iv kp.secretKey.length))
      (keystream (deriveKey passphrase salt) iv
        (xorBytes kp.secretKey
          (keystream (deriveKey passphrase salt) iv
            kp.secretKey.length)).length) = kp.secretKey := by
    rw [hctlen]
    exact xorBytes_xorBytes kp.secretKey _ (by rw [keystream_length])
  refine ⟨Keypair.fromSecretKey kp.secretKey, ?_, ?_, rfl⟩
  · rw [hdec, hinv]
  · show pubkeyOf kp.secretKey = kp.publicKey
    exact hpk.symm

/-- C2 witness: a concrete keypair, nonce and salt. -/
theorem decryptKeypair_encryptKeypair_witness :
    ∃ kp2, decryptKeypair "pass"
        (encryptKeypair "pass" [1, 2] [3] "t0" "w"
          (Keypair.fromSecretKey [7, 8, 9])) = some kp2
      ∧ kp2.publicKey = (Keypair.fromSecretKey [7, 8, 9]).publicKey
      ∧ kp2.secretKey = (Keypair.fromSecretKey [7, 8, 9]).secretKey :=
  decryptKeypair_encryptKeypair "pass" [1, 2] [3] "t0" "w"
    (Keypair.fromSecretKey [7, 8, 9]) (by decide) (by decide) (by decide) rfl

/-! ## Keystore write semantics (C5) -/

theorem lookupRecord_writeRecord_self (store : KeyStore) (name : String)
    (r : StoredKeypair) :
    lookupRecord (writeRecord store name r) name = some r := by
  induction store with
  | nil => simp [writeRecord, lookupRecord]
  | cons p rest ih =>
      obtain ⟨m, r0⟩ := p
      by_cases hm : m = name
      · rw [writeRecord, if_pos hm]
        simp [lookupRecord]
      · rw [writeRecord, if_neg hm]
        unfold lookupRecord
        rw [List.find?_cons_of_neg _ (by simp [hm])]
        exact ih

theorem lookupRecord_writeRecord_other (store : KeyStore)
    (name other : String) (r : StoredKeypair) (h : other ≠ name) :
    lookupRecord (writeRecord store name r) other =
      lookupRecord store other := by
  induction store with
  | nil =>
      unfold writeRecord lookupRecord
      rw [List.find?_cons_of_neg _ (by simp; exact fun hh => h hh.symm)]
  | cons p rest ih =>
      obtain ⟨m, r0⟩ := p
      by_cases hm : m = name
      · subst hm
        rw [writeRecord, if_pos rfl]
        unfold lookupRecord
        rw [List.find?_cons_of_neg _ (by simp; exact fun hh => h hh.symm),
            List.find?_cons_of_neg _ (by simp; exact fun hh => h hh.symm)]
      · rw [writeRecord, if_neg hm]
        by_cases hmo : m = other
        · unfold lookupRecord
          rw [List.find?_cons_of_pos _ (by simp [hmo]),
              List.find?_cons_of_pos _ (by simp [hmo])]
        · unfold lookupRecord
          rw [List.find?_cons_of_neg _ (by simp [hmo]),
              List.find?_cons_of_neg _ (by simp [hmo])]
          exact ih

/-- A keypair reused by the keystore counterexample and witness. -/
def kpX : Keypair := Keypair.fromSecretKey [1, 2, 3]

/-- The keystore after a first `createWallet("x")`. -/
def storeX : KeyStore := saveKeypair "pass" [1] [2] "t0" [] "x" kpX

/-- C5 counterexample: `saveKeypair` writes `<name>.json`
unconditionally, so a second create/save under the same name replaces
the record — its stored encryption material changes. -/
theorem saveKeypair_overwrites :
    lookupRecord storeX "x" =
      some (encryptKeypair "pass" [1] [2] "t0" "x" kpX)
    ∧ lookupRecord (saveKeypair "pass" [9] [8] "t1" storeX "x" kpX) "x" =
        some (encryptKeypair "pass" [9] [8] "t1" "x" kpX)
    ∧ encryptKeypair "pass" [9] [8] "t1" "x" kpX ≠
        encryptKeypair "pass" [1] [2] "t0" "x" kpX := by
  refine ⟨rfl, rfl, ?_⟩
  decide

/-- C5 amended: a create/save under an existing name overwrites that
name's whole record with the freshly encrypted one; records stored
under every other name are unchanged (the write's frame is exactly the
given name). -/
theorem saveKeypair_replaces (store : KeyStore) (passphrase : String)
    (iv salt : List Nat) (now name : String) (kp : Keypair) :
    lookupRecord (saveKeypair passphrase iv salt now store name kp) name =
      some (encryptKeypair passphrase iv salt now name kp)
    ∧ ∀ other, other ≠ name →
        lookupRecord (saveKeypair passphrase iv salt now store name kp)
          other = lookupRecord store other := by
  constructor
  · exact lookupRecord_writeRecord_self store name _
  · intro other hother
    exact lookupRecord_writeRecord_other store name other _ hother

/-- C5 amended witness: saving `x` replaces `x`'s record and leaves
`y`'s record untouched. -/
theorem saveKeypair_replaces_witness :
    lookupRecord
        (saveKeypair "pass" [1] [2] "t0"
          [("y", encryptKeypair "pass" [4] [5] "t9" "y" kpX)] "x" kpX) "x" =
      some (encryptKeypair "pass" [1] [2] "t0" "x" kpX)
    ∧ lookupRecord
        (saveKeypair "pass" [1] [2] "t0"
          [("y", encryptKeypair "pass" [4] [5] "t9" "y" kpX)] "x" kpX) "y" =
      lookupRecord [("y", encryptKeypair "pass" [4] [5] "t9" "y" kpX)] "y" :=
  ⟨(saveKeypair_replaces
      [("y", encryptKeypair "pass" [4] [5] "t9" "y" kpX)] "pass" [1] [2]
      "t0" "x" kpX).1,
    (saveKeypair_replaces
      [("y", encryptKeypair "pass" [4] [5] "t9" "y" kpX)] "pass" [1] [2]
      "t0" "x" kpX).2 "y" (by decide)⟩

/-! ## Per-iteration failure tolerance (C7) -/

/-- The mock price at the start of iteration `i` of `TradingAgent.run`
(so the price used inside iteration `i` is `priceAt factor (i + 1)`). -/
def priceAt (factor : Nat → ℚ) : Nat → ℚ
  | 0 => 1
  | i + 1 => priceAt factor i * factor i

/-- The action attempted in iteration `i` of the trading loop:
`none` when the decision is `HOLD` (or a `SELL` with no balance),
otherwise the outcome of the attempted network call. -/
def tradingAttempt (cfg : TradingConfig) (factor : Nat → ℚ)
    (mintResult transferResult : Nat → Except String String)
    (balance : Nat → Option ℚ) (i : Nat) : Option (Except String String) :=
  match evaluateMarket (priceAt factor (i + 1)) cfg with
  | TradeAction.buy => some (mintResult i)
  | TradeAction.sell =>
      match balance i with
      | some b => if 0 < b then some (transferResult i) else none
      | none => none
  | TradeAction.hold => none

/-- The action attempted in iteration `i` of the liquidity loop. -/
def liquidityAttempt (cfg : LiquidityConfig)
    (mintResult transferResult : Nat → Except String String)
    (balance : Nat → Option ℚ) (i : Nat) : Option (Except String String) :=
  match evaluateBalance ((balance i).getD 0) cfg with
  | LiquidityAction.add => some (mintResult i)
  | LiquidityAction.remove =>
      if 0 < (balance i).getD 0 then some (transferResult i) else none
  | LiquidityAction.hold => none

/-- The signature collected from an attempt, if it succeeded. -/
def successOf : Option (Except String String) → Option String
  | some (Except.ok s) => some s
  | _ => none

theorem tradingRunGo_closed_form (cfg : TradingConfig) (factor : Nat → ℚ)
    (mintResult transferResult : Nat → Except String String)
    (balance : Nat → Option ℚ) :
    ∀ n i, (tradingRunGo cfg factor mintResult transferResult balance
        (fun _ => false) n i (priceAt factor i)).1 =
      (List.range' i n).filterMap
        (fun j => successOf
          (tradingAttempt cfg factor mintResult transferResult balance j)) := by
  intro n
  induction n with
  | zero => intro i; rfl
  | succ n ih =>
      intro i
      rw [List.range'_succ, List.filterMap_cons]
      simp only [tradingRunGo, Bool.false_eq_true, if_false]
      have hprice : priceAt factor i * factor i = priceAt factor (i + 1) :=
        rfl
      rw [hprice, ih (i + 1)]
      unfold tradingAttempt successOf
      cases hA : evaluateMarket (priceAt factor (i + 1)) cfg with
      | buy => cases mintResult i <;> simp
      | sell =>
          cases hb : balance i with
          | none => simp
          | some b =>
              by_cases h0 : 0 < b
              · cases transferResult i <;> simp [h0]
              · simp [h0]
      | hold => simp

theorem liquidityRunGo_closed_form (cfg : LiquidityConfig)
    (mintResult transferResult : Nat → Except String String)
    (balance : Nat → Option ℚ) :
    ∀ n i, (liquidityRunGo cfg mintResult transferResult balance
        (fun _ => false) n i).1 =
      (List.range' i n).filterMap
        (fun j => successOf
          (liquidityAttempt cfg mintResult transferResult balance j)) := by
  intro n
  induction n with
  | zero => intro i; rfl
  | succ n ih =>
      intro i
      rw [List.range'_succ, List.filterMap_cons]
      simp only [liquidityRunGo, Bool.false_eq_true, if_false]
      rw [ih (i + 1)]
      unfold liquidityAttempt successOf
      cases hA : evaluateBalance ((balance i).getD 0) cfg with
      | add => cases mintResult i <;> simp
      | remove =>
          by_cases h0 : 0 < (balance i).getD 0
          · cases transferResult i <;> simp [h0]
          · simp [h0]
      | hold => simp

theorem runSolTransferLoopGo_ok_no_failure (rolls : Nat → ℚ)
    (transfer : Nat → Except String String) (holdProbability : ℚ) :
    ∀ n i acc l,
      runSolTransferLoopGo rolls transfer holdProbability n i acc =
        Except.ok l →
      ∀ j, i ≤ j → j < i + n → holdProbability ≤ rolls j →
        ∃ s, transfer j = Except.ok s := by
  intro n
  induction n with
  | zero => intro i acc l h j hij hj; omega
  | succ n ih =>
      intro i acc l h j hij hj hact
      by_cases hroll : holdProbability ≤ rolls i
      · rw [runSolTransferLoopGo, if_pos hroll] at h
        cases ht : transfer i with
        | error e =>
            rw [ht] at h
            exact absurd h (by simp)
        | ok s =>
            rw [ht] at h
            by_cases hji : j = i
            · exact ⟨s, hji ▸ ht⟩
            · exact ih (i + 1) _ l h j (by omega) (by omega) hact
      · rw [runSolTransferLoopGo, if_neg hroll] at h
        by_cases hji : j = i
        · subst hji
          exact absurd hact hroll
        · exact ih (i + 1) _ l h j (by omega) (by omega) hact

/-- C7 counterexample: the simple transfer loop has no `try`/`catch`:
a transfer failure in iteration 1 aborts the whole run with the error,
discarding the identifier already collected in iteration 0, instead of
being logged and skipped. -/
theorem runSolTransferLoop_aborts_on_failure :
    runSolTransferLoop (fun _ => 1)
        (fun i => if i = 1 then Except.error "boom"
                  else Except.ok (toString i)) 3 0 =
      Except.error "boom" := by
  rfl

/-- C7 amended: the trading and liquidity loops swallow a failed
iteration action (log and continue) and return exactly the
identifiers of the successful attempts of all their iterations; the
simple transfer loop does not — if it returns normally, every acting
iteration succeeded, so a single submission failure aborts its run. -/
theorem executionLoop_failure_tolerance (cfg : TradingConfig)
    (lcfg : LiquidityConfig) (factor : Nat → ℚ)
    (mintResult transferResult : Nat → Except String String)
    (balance : Nat → Option ℚ) (rolls : Nat → ℚ)
    (transfer : Nat → Except String String) (holdProbability : ℚ) :
    ((tradingRun cfg factor mintResult transferResult balance
        (fun _ => false)).1 =
      (List.range' 0 cfg.iterations).filterMap
        (fun j => successOf (tradingAttempt cfg factor mintResult
          transferResult balance j)))
    ∧ ((liquidityRun lcfg mintResult transferResult balance
        (fun _ => false)).1 =
      (List.range' 0 lcfg.iterations).filterMap
        (fun j => successOf (liquidityAttempt lcfg mintResult
          transferResult balance j)))
    ∧ (∀ iterations : Nat, ∀ l : List String,
        runSolTransferLoop rolls transfer iterations holdProbability =
          Except.ok l →
        ∀ j, j < iterations → holdProbability ≤ rolls j →
          ∃ s, transfer j = Except.ok s) := by
  refine ⟨?_, ?_, ?_⟩
  · exact tradingRunGo_closed_form cfg factor mintResult transferResult
      balance cfg.iterations 0
  · exact liquidityRunGo_closed_form lcfg mintResult transferResult
      balance lcfg.iterations 0
  · intro iterations l h j hj hact
    exact runSolTransferLoopGo_ok_no_failure rolls transfer holdProbability
      iterations 0 [] l h j (by omega) (by omega) hact

/-- C7 amended witness: a one-iteration simple run that returned
normally had a successful transfer. -/
theorem executionLoop_failure_tolerance_witness :
    ∃ s, (fun i => Except.ok (toString i) : Nat → Except String String) 0 =
      Except.ok s :=
  (executionLoop_failure_tolerance
    { targetMint := "m", buyThreshold := 1, sellThreshold := 1,
      tradeAmount := 1, iterations := 1, intervalMs := 0 }
    { poolMint := "m", minBalance := 0, maxBalance := 1,
      rebalanceAmount := 1, iterations := 1, intervalMs := 0 }
    (fun _ => 1) (fun _ => Except.ok "m") (fun _ => Except.ok "t")
    (fun _ => none) (fun _ => 1) (fun i => Except.ok (toString i))
    0).2.2 1 ["0"] rfl 0 (by omega) (by norm_num)

/-! ## Cancellation (C8) -/

theorem tradingRunGo_stop_length (cfg : TradingConfig) (factor : Nat → ℚ)
    (mintResult transferResult : Nat → Except String String)
    (balance : Nat → Option ℚ) (stopSig : Nat → Bool) (j : Nat)
    (hstop : ∀ tp, 2 * j ≤ tp → stopSig tp = true) :
    ∀ n i price, (tradingRunGo cfg factor mintResult transferResult balance
        stopSig n i price).1.length ≤ j - i := by
  intro n
  induction n with
  | zero => intro i price; simp [tradingRunGo]
  | succ n ih =>
      intro i price
      by_cases hss : stopSig (2 * i) = true
      · simp [tradingRunGo, hss]
      · have hij : i < j := by
          by_contra hge
          exact hss (hstop (2 * i) (by omega))
        have hrest := ih (i + 1) (price * factor i)
        simp only [tradingRunGo, hss, Bool.false_eq_true, if_false,
          List.length_append]
        have hone : (match evaluateMarket (price * factor i) cfg with
            | TradeAction.buy =>
                match mintResult i with
                | Except.ok s => [s]
                | Except.error _ => []
            | TradeAction.sell =>
                match balance i with
                | some b =>
                    if 0 < b then
                      match transferResult i with
                      | Except.ok s => [s]
                      | Except.error _ => []
                    else []
                | none => []
            | TradeAction.hold => []).length ≤ 1 := by
          cases evaluateMarket (price * factor i) cfg with
          | buy => cases mintResult i <;> simp
          | sell =>
              cases balance i with
              | none => simp
              | some b =>
                  by_cases h0 : 0 < b
                  · cases transferResult i <;> simp [h0]
                  · simp [h0]
          | hold => simp
        omega

theorem tradingRunGo_sleep_not_stopped (cfg : TradingConfig)
    (factor : Nat → ℚ)
    (mintResult transferResult : Nat → Except String String)
    (balance : Nat → Option ℚ) (stopSig : Nat → Bool) :
    ∀ n i price k,
      k ∈ (tradingRunGo cfg factor mintResult transferResult balance
        stopSig n i price).2 → stopSig (2 * k + 1) = false := by
  intro n
  induction n with
  | zero => intro i price k hk; simp [tradingRunGo] at hk
  | succ n ih =>
      intro i price k hk
      by_cases hss : stopSig (2 * i) = true
      · simp [tradingRunGo, hss] at hk
      · simp only [tradingRunGo, hss, Bool.false_eq_true, if_false,
          List.mem_append] at hk
        rcases hk with hk | hk
        · by_cases hcond : 0 < cfg.intervalMs ∧ i < cfg.iterations - 1 ∧
              ¬ stopSig (2 * i + 1) = true
          · rw [if_pos hcond] at hk
            simp only [List.mem_singleton] at hk
            subst hk
            simpa using hcond.2.2
          · rw [if_neg hcond] at hk
            exact absurd hk (List.not_mem_nil k)
        · exact ih (i + 1) (price * factor i) k hk

theorem liquidityRunGo_stop_length (cfg : LiquidityConfig)
    (mintResult transferResult : Nat → Except String String)
    (balance : Nat → Option ℚ) (stopSig : Nat → Bool) (j : Nat)
    (hstop : ∀ tp, 2 * j ≤ tp → stopSig tp = true) :
    ∀ n i, (liquidityRunGo cfg mintResult transferResult balance
        stopSig n i).1.length ≤ j - i := by
  intro n
  induction n with
  | zero => intro i; simp [liquidityRunGo]
  | succ n ih =>
      intro i
      by_cases hss : stopSig (2 * i) = true
      · simp [liquidityRunGo, hss]
      · have hij : i < j := by
          by_contra hge
          exact hss (hstop (2 * i) (by omega))
        have hrest := ih (i + 1)
        simp only [liquidityRunGo, hss, Bool.false_eq_true, if_false,
          List.length_append]
        have hone : (match evaluateBalance ((balance i).getD 0) cfg with
            | LiquidityAction.add =>
                match mintResult i with
                | Except.ok s => [s]
                | Except.error _ => []
            | LiquidityAction.remove =>
                if 0 < (balance i).getD 0 then
                  match transferResult i with
                  | Except.ok s => [s]
                  | Except.error _ => []
                else []
            | LiquidityAction.hold => []).length ≤ 1 := by
          cases evaluateBalance ((balance i).getD 0) cfg with
          | add => cases mintResult i <;> simp
          | remove =>
              by_cases h0 : 0 < (balance i).getD 0
              · cases transferResult i <;> simp [h0]
              · simp [h0]
          | hold => simp
        omega

theorem liquidityRunGo_sleep_not_stopped (cfg : LiquidityConfig)
    (mintResult transferResult : Nat → Except String String)
    (balance : Nat → Option ℚ) (stopSig : Nat → Bool) :
    ∀ n i k,
      k ∈ (liquidityRunGo cfg mintResult transferResult balance
        stopSig n i).2 → stopSig (2 * k + 1) = false := by
  intro n
  induction n with
  | zero => intro i k hk; simp [liquidityRunGo] at hk
  | succ n ih =>
      intro i k hk
      by_cases hss : stopSig (2 * i) = true
      · simp [liquidityRunGo, hss] at hk
      · simp only [liquidityRunGo, hss, Bool.false_eq_true, if_false,
          List.mem_append] at hk
        rcases hk with hk | hk
        · by_cases hcond : 0 < cfg.intervalMs ∧ i < cfg.iterations - 1 ∧
              ¬ stopSig (2 * i + 1) = true
          · rw [if_pos hcond] at hk
            simp only [List.mem_singleton] at hk
            subst hk
            simpa using hcond.2.2
          · rw [if_neg hcond] at hk
            exact absurd hk (List.not_mem_nil k)
        · exact ih (i + 1) k hk

theorem find?_removeRunning (running : List (String × RunnerKind))
    (id : String) :
    (removeRunning running id).find? (fun p => p.1 = id) = none := by
  induction running with
  | nil => rfl
  | cons p rest ih =>
      by_cases hp : p.1 = id
      · unfold removeRunning at *
        rw [List.filter_cons, if_neg (by simp [hp])]
        exact ih
      · unfold removeRunning at *
        rw [List.filter_cons, if_pos (by simp [hp]),
          List.find?_cons_of_neg _ (by simp [hp])]
        exact ih

theorem isRunning_stopAgent (running : List (String × RunnerKind))
    (agents : List AgentRecord) (id now : String) :
    isRunning (stopAgent running agents id now).1 id = false := by
  unfold stopAgent isRunning
  cases hf : running.find? (fun p => p.1 = id) with
  | some p =>
      simp only
      rw [find?_removeRunning]
      rfl
  | none =>
      simp only
      rw [hf]
      rfl

theorem stopAgent_signals (running : List (String × RunnerKind))
    (agents : List AgentRecord) (id now : String) (p : String × RunnerKind)
    (h : running.find? (fun q => q.1 = id) = some p) :
    (stopAgent running agents id now).2.2 = runnerHasStop p.2 := by
  unfold stopAgent
  rw [h]

/-- C8 counterexample: `SimpleAgentRunner` has no `running` flag and
no `stop` method, so `stopAgent` delivers no stop signal to a simple
runner (it only removes the id from the Running-Agent Set), and a
10-iteration, `intervalMs = 0` simple transfer run returns all 10
identifiers — not a sequence strictly shorter than 10. -/
theorem simple_loop_ignores_stop :
    (stopAgent [("a", RunnerKind.simple)] sampleAgents "a" "t1" =
      ([], [{ sampleRecord with lastUpdated := some "t1" }], false))
    ∧ runSolTransferLoop (fun _ => 1) (fun i => Except.ok (toString i))
        10 0 =
      Except.ok ["0", "1", "2", "3", "4", "5", "6", "7", "8", "9"] :=
  ⟨rfl, rfl⟩

/-- C8 amended: the trading and liquidity loops observe cancellation
at the top of each iteration and again before each pacing suspension —
once the stop signal is observed by point `2 * j` the run yields at
most `j` results and never paces after the signal — and `stopAgent`
always removes the id from the Running-Agent Set, delivering a stop
signal exactly when the stored runner has a `stop` method (which the
simple transfer runner lacks: its loop runs all its iterations). -/
theorem cancellation_behavior (cfg : TradingConfig)
    (lcfg : LiquidityConfig) (factor : Nat → ℚ)
    (mintResult transferResult : Nat → Except String String)
    (balance : Nat → Option ℚ) (stopSig : Nat → Bool) (j : Nat)
    (hstop : ∀ tp, 2 * j ≤ tp → stopSig tp = true) :
    ((tradingRun cfg factor mintResult transferResult balance
        stopSig).1.length ≤ j)
    ∧ (∀ k ∈ (tradingRun cfg factor mintResult transferResult balance
        stopSig).2, stopSig (2 * k + 1) = false)
    ∧ ((liquidityRun lcfg mintResult transferResult balance
        stopSig).1.length ≤ j)
    ∧ (∀ k ∈ (liquidityRun lcfg mintResult transferResult balance
        stopSig).2, stopSig (2 * k + 1) = false)
    ∧ (∀ running : List (String × RunnerKind), ∀ agents : List AgentRecord,
        ∀ id now : String,
        isRunning (stopAgent running agents id now).1 id = false
        ∧ ∀ p : String × RunnerKind,
            running.find? (fun q => q.1 = id) = some p →
            (stopAgent running agents id now).2.2 = runnerHasStop p.2) := by
  refine ⟨?_, ?_, ?_, ?_, ?_⟩
  · have := tradingRunGo_stop_length cfg factor mintResult transferResult
      balance stopSig j hstop cfg.iterations 0 1
    simpa [tradingRun] using this
  · intro k hk
    exact tradingRunGo_sleep_not_stopped cfg factor mintResult
      transferResult balance stopSig cfg.iterations 0 1 k hk
  · have := liquidityRunGo_stop_length lcfg mintResult transferResult
      balance stopSig j hstop lcfg.iterations 0
    simpa [liquidityRun] using this
  · intro k hk
    exact liquidityRunGo_sleep_not_stopped lcfg mintResult transferResult
      balance stopSig lcfg.iterations 0 k hk
  · intro running agents id now
    exact ⟨isRunning_stopAgent running agents id now,
      fun p hp => stopAgent_signals running agents id now p hp⟩

/-- C8 amended witness: stop observed from point 6 on (iteration 3)
during a 10-iteration trading run bounds the results by 3. -/
theorem cancellation_behavior_witness :
    (tradingRun
        { targetMint := "m", buyThreshold := 1, sellThreshold := 1,
          tradeAmount := 1, iterations := 10, intervalMs := 0 }
        (fun _ => 1) (fun _ => Except.ok "m") (fun _ => Except.ok "t")
        (fun _ => none) (fun t => decide (6 ≤ t))).1.length ≤ 3 :=
  (cancellation_behavior
    { targetMint := "m", buyThreshold := 1, sellThreshold := 1,
      tradeAmount := 1, iterations := 10, intervalMs := 0 }
    { poolMint := "m", minBalance := 0, maxBalance := 1,
      rebalanceAmount := 1, iterations := 10, intervalMs := 0 }
    (fun _ => 1) (fun _ => Except.ok "m") (fun _ => Except.ok "t")
    (fun _ => none) (fun t => decide (6 ≤ t)) 3
    (fun tp htp => decide_eq_true (by omega))).1

end AgenticWallet
